import Mathlib

/-!
Verification of the group-moderation bot (`src/main.py`) against its
natural-language specification.  The Python source is shallowly embedded:
pure helpers become Lean functions, the mutable per-(chat,user) spam state
becomes an explicit state record threaded through the pipeline, and the
external inputs of a pipeline run (whitelist membership, effective role,
platform member status, clock) become explicit parameters.  Chat and user
ids are `ℤ`, and all timestamps are `ℤ`: the source carries `time.time()`
floats in its in-memory windows, but it only ever orders and subtracts
them, and every claim below is about those order properties, so an ordered
additive group of integer timestamps is a faithful carrier.
-/

namespace Bot

/-! ### Roles (main.py 122-166) -/

def ROLE_SEEKER : String := "seeker"
def ROLE_MOD : String := "moderator"
def ROLE_ADMIN : String := "admin"
def ROLE_HEAD : String := "head_admin"
def ROLE_CREATOR : String := "creator"

def ROLE_ORDER : List String := [ROLE_SEEKER, ROLE_MOD, ROLE_ADMIN, ROLE_HEAD, ROLE_CREATOR]

/-- The `ROLE_RANK.get(role, -1)`: index of the role in `ROLE_ORDER`, `-1` when the
string is not a known role name. -/
def roleRank (r : String) : ℤ :=
  match ROLE_ORDER.indexOf? r with
  | some i => (i : ℤ)
  | none => -1

/-- The `role_at_least` (main.py 140-143): `None` never satisfies any requirement. -/
def role_at_least (role : Option String) (required : String) : Bool :=
  match role with
  | none => false
  | some r => roleRank r ≥ roleRank required

/-- The `get_effective_role` (main.py 691-698).  `platformStatus` is the status
string reported by `get_chat_member` (`none` models a `TelegramBadRequest`),
`stored` is the role stored in the data file for this (chat, user). -/
def get_effective_role (platformStatus : Option String) (stored : Option String) :
    Option String :=
  if platformStatus = some "creator" then some ROLE_CREATOR else stored

/-- The `ensure_can_moderate_target` (main.py 717-731).  The two platform lookups
for the target are modelled by the single `targetStatus` value.  The Python
guard `if actor_role and target_role` is the `some a, some t` match arm
(stored roles are validated against `ROLE_RANK` on write, so they are never
the empty string). -/
def ensure_can_moderate_target (targetStatus actorStatus : Option String)
    (actorStored targetStored : Option String) : Bool :=
  if targetStatus = some "creator" ∨ targetStatus = some "administrator" then
    false
  else
    match get_effective_role actorStatus actorStored,
        get_effective_role targetStatus targetStored with
    | some a, some t => if roleRank t ≥ roleRank a then false else true
    | _, _ => true

/-- Rank of an optional effective role, absence ranking below every real role
(the `ROLE_RANK.get(role, -1)` convention of the source). -/
def effRank : Option String → ℤ
  | none => -1
  | some r => roleRank r

/-! ### Settings store (main.py 172-194, 269-292) -/

/-- A JSON-ish scalar stored in a settings record. -/
inductive SettingVal
  | vi (n : ℤ)
  | vb (b : Bool)
  | vs (s : String)
deriving DecidableEq

/-- Association-list model of a Python dict: first binding of a key wins,
assigning to an absent key appends at the end (dict insertion order). -/
def alistGet {α β : Type} [DecidableEq α] : List (α × β) → α → Option β
  | [], _ => none
  | e :: rest, k => if e.1 = k then some e.2 else alistGet rest k

def alistSet {α β : Type} [DecidableEq α] : List (α × β) → α → β → List (α × β)
  | [], k, v => [(k, v)]
  | e :: rest, k, v => if e.1 = k then (k, v) :: rest else e :: alistSet rest k v

/-- The `asdict(DEFAULT).keys()` (main.py 172-194): the recognized setting field
names, in dataclass order. -/
def settingsFields : List String :=
  ["enabled", "flood_limit", "flood_window_sec", "repeat_limit", "block_links",
   "sticker_mode", "gif_mode", "sticker_limit", "gif_limit", "media_window_sec",
   "action", "mute_seconds", "cleanup_enabled", "cleanup_days", "cleanup_mode"]

/-- The `asdict(DEFAULT)` (main.py 172-194): the default settings record. -/
def defaultSettingsDict : List (String × SettingVal) :=
  [("enabled", .vb true), ("flood_limit", .vi 6), ("flood_window_sec", .vi 10),
   ("repeat_limit", .vi 3), ("block_links", .vb true), ("sticker_mode", .vs "limit"),
   ("gif_mode", .vs "limit"), ("sticker_limit", .vi 4), ("gif_limit", .vi 3),
   ("media_window_sec", .vi 12), ("action", .vs "mute"), ("mute_seconds", .vi 14400),
   ("cleanup_enabled", .vb false), ("cleanup_days", .vi 14), ("cleanup_mode", .vs "kick")]

/-- The `DATA["settings"]`: chat key to per-chat settings record. -/
structure SettingsStore where
  settings : List (ℤ × List (String × SettingVal))
deriving DecidableEq

def storeLookup (st : SettingsStore) (chat : ℤ) : Option (List (String × SettingVal)) :=
  alistGet st.settings chat

/-- The `set_setting_local` (main.py 284-292).  Result: the store after the call,
whether `save_data` was invoked, and the raised error if any (`ValueError
("Bad field")` is raised before anything is touched). -/
def set_setting_local (st : SettingsStore) (chat : ℤ) (field : String) (v : SettingVal) :
    SettingsStore × Bool × Option String :=
  if field ∉ settingsFields then (st, false, some "Bad field")
  else
    let d := (storeLookup st chat).getD defaultSettingsDict
    (⟨alistSet st.settings chat (alistSet d field v)⟩, true, none)

/-! ### Text helpers (main.py 590-608)

Strings are worked on as `List Char`.  Whitespace is modelled by the six
ASCII whitespace characters stripped by Python's `str.strip()`; lowercasing
is `Char.toLower` (ASCII).  This is faithful for ASCII text, which is all
the claims exercise. -/

def isPySpace (c : Char) : Bool :=
  c == ' ' || c == '\t' || c == '\n' || c == '\r' || c == '\x0b' || c == '\x0c'

def lowerList (l : List Char) : List Char := l.map Char.toLower

/-- Python `s.strip()`: drop leading and trailing whitespace. -/
def pyStrip (l : List Char) : List Char :=
  ((l.dropWhile isPySpace).reverse.dropWhile isPySpace).reverse

/-- One pass of Python `s.replace("  ", " ")`: non-overlapping, left to right. -/
def replacePairs : List Char → List Char
  | [] => []
  | [c] => [c]
  | c :: c2 :: rest =>
    if c = ' ' ∧ c2 = ' ' then ' ' :: replacePairs rest
    else c :: replacePairs (c2 :: rest)

/-- Python `"  " in s`: some adjacent pair of spaces. -/
def hasDoubleSpace : List Char → Bool
  | [] => false
  | [_] => false
  | c :: c2 :: rest => (c == ' ' && c2 == ' ') || hasDoubleSpace (c2 :: rest)

/-- The `while "  " in s: s = s.replace("  ", " ")` loop of `norm_text`,
with fuel.  Each productive iteration strictly shrinks the list, so
`l.length` fuel always reaches the fixpoint (`collapseSpaces_fix` below). -/
def collapseLoopFuel : ℕ → List Char → List Char
  | 0, l => l
  | n + 1, l => if hasDoubleSpace l then collapseLoopFuel n (replacePairs l) else l

def collapseSpaces (l : List Char) : List Char := collapseLoopFuel l.length l

/-- The `norm_text` (main.py 590-594): strip, lowercase, collapse runs of the
space character. -/
def norm_text (s : String) : String :=
  String.mk (collapseSpaces (lowerList (pyStrip s.data)))

/-- The `text_hash` (main.py 597-599) computes
`hashlib.sha256(norm_text(s).encode()).hexdigest()[:16]`.  The hash function
is kept as a parameter: every claim uses only that the fingerprint is a
deterministic function of the normalized text. -/
def text_hash (hashFn : String → String) (s : String) : String :=
  hashFn (norm_text s)

/-- The `LINK_MARKERS` (main.py 102). -/
def LINK_MARKERS : List (List Char) :=
  ["http://".data, "https://".data, "t.me/".data, "www.".data]

/-- Python substring containment `pat in t` (for nonempty `pat`). -/
def containsSub (pat : List Char) : List Char → Bool
  | [] => decide (pat = [])
  | c :: rest => pat.isPrefixOf (c :: rest) || containsSub pat rest

/-- One alternative of the regex `(https?://|t\.me/|www\.)\S+` matching at
the head of `l`: the literal `pat` followed by at least one non-space. -/
def regexAltAt (l : List Char) (pat : List Char) : Bool :=
  pat.isPrefixOf l &&
    (match l.drop pat.length with
     | [] => false
     | c :: _ => !(isPySpace c))

/-- The `re.search(r"(https?://|t\.me/|www\.)\S+", t)` viewed as a Bool: some
position where an alternative matches.  `https?://` is the two literals
`http://` and `https://`. -/
def hasRegexLink : List Char → Bool
  | [] => false
  | c :: rest =>
    (regexAltAt (c :: rest) "http://".data || regexAltAt (c :: rest) "https://".data ||
     regexAltAt (c :: rest) "t.me/".data || regexAltAt (c :: rest) "www.".data) ||
    hasRegexLink rest

/-- The `contains_link` (main.py 602-608). -/
def contains_link (text : String) : Bool :=
  let t := lowerList text.data
  if LINK_MARKERS.any (fun m => containsSub m t) then true
  else if hasRegexLink t then true
  else false

/-! ### Whitelist (main.py 368-373) -/

/-- The `is_whitelisted`: `wlData` models `DATA["whitelist"]` (chat key to list of
user ids; the source stores ids as strings and compares their string forms,
which is injective on ints, so plain id equality is the faithful reading). -/
def is_whitelisted (wlData : List (ℤ × List ℤ)) (chat user : ℤ) : Bool :=
  match alistGet wlData chat with
  | none => false
  | some wl => wl.contains user

/-! ### Sliding windows and duplicate state (main.py 578-584, 2356-2414) -/

/-- The `while dq and (now - dq[0]) > window: dq.popleft()`. -/
def trimFront (now W : ℤ) : List ℤ → List ℤ
  | [] => []
  | t :: rest => if now - t > W then trimFront now W rest else t :: rest

/-- One rate-limiter event: `dq.append(now)` then the front-trim loop
(the same three lines serve the message, sticker and animation windows). -/
def recordEvent (dq : List ℤ) (now W : ℤ) : List ℤ := trimFront now W (dq ++ [now])

/-- The duplicate-detector update (main.py 2408-2411): bump the consecutive
count on a matching fingerprint, else reset to 1; the new fingerprint is
stored either way. -/
def repeatRecord (st : String × ℕ) (hsh : String) : String × ℕ :=
  if hsh = st.1 then (hsh, st.2 + 1) else (hsh, 1)

/-! ### Album bookkeeping (main.py 584, 2335-2354) -/

/-- Stable insertion (ascending by timestamp): a new element goes in front of
the first element with a timestamp `≥` its own, so elements with equal
timestamps keep their original relative order, as Python's stable `sorted`
with `key=lambda x: x[1]` does. -/
def insertByTs (e : String × ℤ) : List (String × ℤ) → List (String × ℤ)
  | [] => [e]
  | x :: xs => if e.2 ≤ x.2 then e :: x :: xs else x :: insertByTs e xs

def sortByTs (l : List (String × ℤ)) : List (String × ℤ) := l.foldr insertByTs []

/-- The size cap of `album_seen` (main.py 2347-2349): when more than 300
groups are tracked, drop the 100 oldest (by first-seen timestamp). -/
def evictAlbum (seen : List (String × ℤ)) : List (String × ℤ) :=
  let victims := ((sortByTs seen).take 100).map Prod.fst
  seen.filter (fun e => ¬ victims.contains e.1)

/-! ### The moderation pipeline `moderate_all` (main.py 2302-2414) -/

/-- The per-chat settings record as the pipeline reads it. -/
structure ChatSettings where
  enabled : Bool
  flood_limit : ℤ
  flood_window_sec : ℤ
  repeat_limit : ℤ
  block_links : Bool
  sticker_mode : String
  gif_mode : String
  sticker_limit : ℤ
  gif_limit : ℤ
  media_window_sec : ℤ
  action : String
  mute_seconds : ℤ
  cleanup_enabled : Bool
  cleanup_days : ℤ
  cleanup_mode : String
deriving DecidableEq

/-- The message fields `moderate_all` inspects. -/
structure Msg where
  chatTypeGroup : Bool
  hasFromUser : Bool
  fromBot : Bool
  media_group_id : Option String
  sticker : Bool
  animation : Bool
  text : Option String
  caption : Option String
deriving DecidableEq

/-- The in-memory spam state of one (chat, user) key: `msg_times`,
`sticker_times`, `gif_times`, `last_hash` and `album_seen` (main.py 578-584).
Only the sender's own key is ever read or written by one pipeline run. -/
structure SpamState where
  msgTimes : List ℤ
  stickerTimes : List ℤ
  gifTimes : List ℤ
  lastHash : String × ℕ
  albumSeen : List (String × ℤ)
deriving DecidableEq

/-- External facts consumed by one pipeline run: whitelist membership,
effective role, platform member status (`none` models `TelegramBadRequest`),
the message, and the clock. -/
structure ModInput where
  wl : Bool
  role : Option String
  memberStatus : Option String
  msg : Msg
  now : ℤ
deriving DecidableEq

/-- Python `message.text or message.caption or ""` (truthiness: an empty
text falls through to the caption). -/
def pyOrStr (a b : Option String) : String :=
  match a with
  | some s => if s = "" then (b.getD "") else s
  | none => b.getD ""

/-- The category dispatch of `moderate_all` (main.py 2335-2414): everything
after the whitelist/role/platform-admin bypasses. -/
def dispatch (hashFn : String → String) (s : ChatSettings) (inp : ModInput)
    (st : SpamState) : SpamState × Option String :=
  match inp.msg.media_group_id with
    | some mgid =>
      if (alistGet st.albumSeen mgid).isSome then (st, none)
      else
        let seen1 := st.albumSeen ++ [(mgid, inp.now)]
        let seen2 := if seen1.length > 300 then evictAlbum seen1 else seen1
        let st1 : SpamState := { st with albumSeen := seen2 }
        let cap := norm_text (inp.msg.caption.getD "")
        if cap ≠ "" ∧ s.block_links ∧ contains_link cap then (st1, some "album_link")
        else (st1, none)
    | none =>
      if inp.msg.sticker then
        if s.sticker_mode = "ban" then (st, some "sticker_ban")
        else if s.sticker_mode = "limit" then
          let dq := recordEvent st.stickerTimes inp.now s.media_window_sec
          let st1 : SpamState := { st with stickerTimes := dq }
          if (dq.length : ℤ) > s.sticker_limit then (st1, some "sticker_limit")
          else (st1, none)
        else (st, none)
      else if inp.msg.animation then
        if s.gif_mode = "ban" then (st, some "gif_ban")
        else if s.gif_mode = "limit" then
          let dq := recordEvent st.gifTimes inp.now s.media_window_sec
          let st1 : SpamState := { st with gifTimes := dq }
          if (dq.length : ℤ) > s.gif_limit then (st1, some "gif_limit")
          else (st1, none)
        else (st, none)
      else
        let text := pyOrStr inp.msg.text inp.msg.caption
        let tnorm := norm_text text
        let dq := recordEvent st.msgTimes inp.now s.flood_window_sec
        let st1 : SpamState := { st with msgTimes := dq }
        if (dq.length : ℤ) > s.flood_limit then (st1, some "flood")
        else if s.block_links ∧ tnorm ≠ "" ∧ contains_link tnorm then (st1, some "link")
        else if tnorm ≠ "" then
          let hsh := text_hash hashFn tnorm
          let c2 := repeatRecord st1.lastHash hsh
          let st2 : SpamState := { st1 with lastHash := c2 }
          if (c2.2 : ℤ) ≥ s.repeat_limit then (st2, some "repeat") else (st2, none)
        else (st1, none)

/-- The `moderate_all` (main.py 2302-2414), as a function from the sender's spam
state to the new state and the enforcement verdict passed to `apply_action`
(`none` when no action is taken).  The early returns of the source are the
`(st, none)` branches; the activity upsert (main.py 2309) touches only the
activity store, not this state. -/
def moderate_all (hashFn : String → String) (s : ChatSettings) (inp : ModInput)
    (st : SpamState) : SpamState × Option String :=
  if ¬ inp.msg.chatTypeGroup then (st, none)
  else if ¬ inp.msg.hasFromUser ∨ inp.msg.fromBot then (st, none)
  else if ¬ s.enabled then (st, none)
  else if inp.wl then (st, none)
  else if inp.role.isSome ∧ role_at_least inp.role ROLE_MOD then (st, none)
  else if inp.memberStatus = some "administrator" ∨ inp.memberStatus = some "creator" then
    (st, none)
  else dispatch hashFn s inp st

/-- The bypass guards all fail: the message is subject to moderation. -/
def guardsPass (s : ChatSettings) (inp : ModInput) : Prop :=
  inp.msg.chatTypeGroup = true ∧ inp.msg.hasFromUser = true ∧ inp.msg.fromBot = false ∧
  s.enabled = true ∧ inp.wl = false ∧
  ¬ (inp.role.isSome ∧ role_at_least inp.role ROLE_MOD = true) ∧
  inp.memberStatus ≠ some "administrator" ∧ inp.memberStatus ≠ some "creator"

instance (s : ChatSettings) (inp : ModInput) : Decidable (guardsPass s inp) := by
  unfold guardsPass
  infer_instance

/-- Processing a sequence of messages in order, collecting each verdict. -/
def runPipeline (hashFn : String → String) (s : ChatSettings) (inps : List ModInput)
    (st : SpamState) : SpamState × List (Option String) :=
  match inps with
  | [] => (st, [])
  | i :: rest =>
    let r := moderate_all hashFn s i st
    let rr := runPipeline hashFn s rest r.1
    (rr.1, r.2 :: rr.2)

/-! ### Warning ledger (main.py 501-520, 2265-2296) -/

structure WarnEntry where
  count : ℕ
  last_ts : ℤ
  last_reason : String
  last_by : ℤ
deriving DecidableEq

/-- The `add_warn_local` (main.py 501-520): build the new entry from the stored
one (or the zero-count default), store it, return the new count.
`save_data` is called unconditionally on this path, so persistence needs no
separate flag here. -/
def add_warn_local (warns : List (ℤ × List (ℤ × WarnEntry))) (chat user by_id : ℤ)
    (now : ℤ) (reason : String) : List (ℤ × List (ℤ × WarnEntry)) × ℕ :=
  let chatMap := (alistGet warns chat).getD []
  let old := (alistGet chatMap user).getD ⟨0, now, "", by_id⟩
  let entry : WarnEntry := ⟨old.count + 1, now, reason, by_id⟩
  (alistSet warns chat (alistSet chatMap user entry), entry.count)

/-- The automatic escalation in `cmd_warn` (main.py 2265-2268): after a warn
that makes the count a multiple of 3, one mute of 3600 seconds is issued. -/
def cmd_warn_auto_mute (cnt : ℕ) : Option ℕ :=
  if cnt % 3 = 0 then some 3600 else none

/-! ### Activity pruning (main.py 114-116, 526-563) -/

def ACTIVITY_KEEP_DAYS : ℤ := 180

def ACTIVITY_MAX_PER_CHAT : ℕ := 20000

/-- Stable insertion, descending by timestamp: an element goes in front of
the first element with a timestamp `≤` its own, so Python's stable
`sort(key=..., reverse=True)` order is reproduced. -/
def insertDescByTs (e : String × ℤ) : List (String × ℤ) → List (String × ℤ)
  | [] => [e]
  | x :: xs => if x.2 ≤ e.2 then e :: x :: xs else x :: insertDescByTs e xs

def sortDescByTs (l : List (String × ℤ)) : List (String × ℤ) := l.foldr insertDescByTs []

/-- One chat's pass of `prune_activity_once` (main.py 534-560): keep the
entries whose timestamp reaches the cutoff plus the `ACTIVITY_MAX_PER_CHAT`
most recent ones, drop the rest.  `users` models the chat's activity dict
restricted to its well-formed entries (an `info` dict with an int
`last_ts`), which is exactly the set the source enumerates. -/
def prune_chat (cutoff : ℤ) (users : List (String × ℤ)) : List (String × ℤ) :=
  let sorted := sortDescByTs users
  let keepA := (users.filter (fun e => cutoff ≤ e.2)).map Prod.fst
  let keepB := (sorted.take ACTIVITY_MAX_PER_CHAT).map Prod.fst
  users.filter (fun e => decide (e.1 ∈ keepA ∨ e.1 ∈ keepB))

/-- The `prune_activity_once` (main.py 526-563) across all chats. -/
def prune_activity_once (now : ℤ) (activity : List (ℤ × List (String × ℤ))) :
    List (ℤ × List (String × ℤ)) :=
  activity.map (fun e => (e.1, prune_chat (now - ACTIVITY_KEEP_DAYS * 86400) e.2))

/-! ### Canonical space collapsing (specification-side, for the `norm_text`
refinement): one pass that keeps a single space per run. -/

def collapseRunsAux : Bool → List Char → List Char
  | _, [] => []
  | prevSpace, c :: rest =>
    if c = ' ' then
      if prevSpace then collapseRunsAux true rest
      else ' ' :: collapseRunsAux true rest
    else c :: collapseRunsAux false rest

/-- Replace every maximal run of spaces by a single space. -/
def collapseRuns (l : List Char) : List Char := collapseRunsAux false l

/-- The trailing-whitespace half of `pyStrip`. -/
def stripEnd (l : List Char) : List Char := (l.reverse.dropWhile isPySpace).reverse

/-- A user sending the same fingerprint repeatedly: iterate the
duplicate-detector update. -/
def foldRepeat (st : String × ℕ) (fps : List String) : String × ℕ :=
  fps.foldl repeatRecord st

/-- A user producing a sequence of events: iterate the rate-limiter update
on one window, starting from the empty window. -/
def foldRecord (W : ℤ) (ts : List ℤ) : List ℤ :=
  ts.foldl (fun dq t => recordEvent dq t W) []

/-! ## Shared lemmas -/

theorem alistGet_set_self {α β : Type} [DecidableEq α] (d : List (α × β)) (k : α) (v : β) :
    alistGet (alistSet d k v) k = some v := by
  induction d with
  | nil => simp [alistGet, alistSet]
  | cons e rest ih =>
    by_cases h : e.1 = k
    · simp [alistGet, alistSet, h]
    · simp [alistGet, alistSet, h, ih]

theorem alistGet_set_ne {α β : Type} [DecidableEq α] (d : List (α × β)) (k k' : α) (v : β)
    (h : k' ≠ k) : alistGet (alistSet d k v) k' = alistGet d k' := by
  induction d with
  | nil => simp [alistGet, alistSet, Ne.symm h]
  | cons e rest ih =>
    by_cases he : e.1 = k
    · simp [alistGet, alistSet, he, Ne.symm h]
    · simp [alistGet, alistSet, he, ih]

theorem moderate_all_guards (hashFn : String → String) (s : ChatSettings) (inp : ModInput)
    (st : SpamState) (h : guardsPass s inp) :
    moderate_all hashFn s inp st = dispatch hashFn s inp st := by
  obtain ⟨h1, h2, h3, h4, h5, h6, h7, h8⟩ := h
  simp [moderate_all, h1, h2, h3, h4, h5, h6, h7, h8]

/-! ## Claim C6: warning ledger escalation -/

/-- Claim C6: `add_warn_local` unconditionally increments the per-(chat,user)
warning count by exactly 1, stores the new entry, and returns the new total;
`cmd_warn` triggers exactly one automatic 3600-second mute when and only when
the returned total is a (necessarily positive) multiple of 3. -/
theorem claim_C6_warn_escalation (warns : List (ℤ × List (ℤ × WarnEntry)))
    (chat user by_id now : ℤ) (reason : String) :
    (add_warn_local warns chat user by_id now reason).2 =
      ((alistGet ((alistGet warns chat).getD []) user).getD ⟨0, now, "", by_id⟩).count + 1 ∧
    (alistGet ((alistGet (add_warn_local warns chat user by_id now reason).1 chat).getD [])
        user).map WarnEntry.count = some (add_warn_local warns chat user by_id now reason).2 ∧
    0 < (add_warn_local warns chat user by_id now reason).2 ∧
    (cmd_warn_auto_mute (add_warn_local warns chat user by_id now reason).2 = some 3600 ↔
      3 ∣ (add_warn_local warns chat user by_id now reason).2) ∧
    (cmd_warn_auto_mute (add_warn_local warns chat user by_id now reason).2 = none ↔
      ¬ 3 ∣ (add_warn_local warns chat user by_id now reason).2) := by
  refine ⟨rfl, ?_, ?_, ?_, ?_⟩
  · simp [add_warn_local, alistGet_set_self]
  · simp [add_warn_local]
  · simp [cmd_warn_auto_mute, Nat.dvd_iff_mod_eq_zero]
  · simp [cmd_warn_auto_mute, Nat.dvd_iff_mod_eq_zero]

/-! ## Claim C7: settings mutation error handling -/

/-- Claim C7: `set_setting_local` fails (raises, before touching anything)
iff the field is not a recognized `ChatSettings` field name; on success it
merges the value into the per-chat record — created from the defaults when
absent — persists, and leaves every other field and chat untouched. -/
theorem claim_C7_set_setting (st : SettingsStore) (chat : ℤ) (field : String) (v : SettingVal) :
    ((set_setting_local st chat field v).2.2 ≠ none ↔ field ∉ settingsFields) ∧
    (field ∉ settingsFields →
      set_setting_local st chat field v = (st, false, some "Bad field")) ∧
    (field ∈ settingsFields →
      (set_setting_local st chat field v).2.1 = true ∧
      (set_setting_local st chat field v).2.2 = none ∧
      storeLookup (set_setting_local st chat field v).1 chat =
        some (alistSet ((storeLookup st chat).getD defaultSettingsDict) field v) ∧
      alistGet ((storeLookup (set_setting_local st chat field v).1 chat).getD
        defaultSettingsDict) field = some v ∧
      (∀ f, f ≠ field →
        alistGet ((storeLookup (set_setting_local st chat field v).1 chat).getD
          defaultSettingsDict) f =
        alistGet ((storeLookup st chat).getD defaultSettingsDict) f) ∧
      (∀ c, c ≠ chat →
        storeLookup (set_setting_local st chat field v).1 c = storeLookup st c)) := by
  by_cases hf : field ∈ settingsFields
  · refine ⟨by simp [set_setting_local, hf], fun hc => absurd hf hc, fun _ => ?_⟩
    refine ⟨by simp [set_setting_local, hf], by simp [set_setting_local, hf], ?_, ?_, ?_, ?_⟩
    · simp [set_setting_local, hf, storeLookup, alistGet_set_self]
    · simp [set_setting_local, hf, storeLookup, alistGet_set_self]
    · intro f hne
      simp [set_setting_local, hf, storeLookup, alistGet_set_self, alistGet_set_ne _ _ _ _ hne]
    · intro c hne
      simp [set_setting_local, hf, storeLookup, alistGet_set_ne _ _ _ _ hne]
  · exact ⟨by simp [set_setting_local, hf], fun _ => by simp [set_setting_local, hf],
      fun hc => absurd hc hf⟩

/-- Witness for claim C7 at concrete inputs: a recognized field succeeds and
an unknown field is rejected with nothing mutated. -/
theorem claim_C7_set_setting_witness :
    ("flood_limit" ∈ settingsFields ∧
      (set_setting_local ⟨[]⟩ 5 "flood_limit" (.vi 9)).2.1 = true) ∧
    ("warn_limit" ∉ settingsFields ∧
      set_setting_local ⟨[]⟩ 5 "warn_limit" (.vi 9) = (⟨[]⟩, false, some "Bad field")) :=
  ⟨⟨by decide, ((claim_C7_set_setting ⟨[]⟩ 5 "flood_limit" (.vi 9)).2.2 (by decide)).1⟩,
   ⟨by decide, (claim_C7_set_setting ⟨[]⟩ 5 "warn_limit" (.vi 9)).2.1 (by decide)⟩⟩

/-! ## Claim C3: who can be moderated -/

/-- Claim C3 is refuted at this input: the actor has no effective role at
all (rank -1 by the `ROLE_RANK.get(role, -1)` convention), the target's
effective role is moderator (rank 1), the platform reports both as plain
members — target rank ≥ actor rank, yet `ensure_can_moderate_target`
permits the action, because the source compares ranks only when BOTH
effective roles are present. -/
theorem claim_C3_counterexample :
    ensure_can_moderate_target (some "member") (some "member") none (some ROLE_MOD) = true ∧
    effRank (get_effective_role (some "member") (some ROLE_MOD)) ≥
      effRank (get_effective_role (some "member") none) := by
  decide

/-- Claim C3 as amended: `ensure_can_moderate_target` returns false exactly
when the platform reports the target as creator or administrator, or when
both the actor and the target have an effective role and the target's rank
is ≥ the actor's rank.  When either effective role is absent (and the
target is not platform creator/administrator) the rank comparison is
skipped and moderation is permitted. -/
theorem claim_C3_amended (targetStatus actorStatus actorStored targetStored : Option String) :
    ensure_can_moderate_target targetStatus actorStatus actorStored targetStored = false ↔
      (targetStatus = some "creator" ∨ targetStatus = some "administrator") ∨
      (∃ a t, get_effective_role actorStatus actorStored = some a ∧
        get_effective_role targetStatus targetStored = some t ∧
        roleRank a ≤ roleRank t) := by
  unfold ensure_can_moderate_target
  by_cases h : targetStatus = some "creator" ∨ targetStatus = some "administrator"
  · simp [h]
  · rw [if_neg h]
    rcases ha : get_effective_role actorStatus actorStored with _ | a <;>
      rcases ht : get_effective_role targetStatus targetStored with _ | t <;>
        simp [h, ha, ht]

/-! ## Claim C10: link detection -/

theorem containsSub_of_isPrefixOf (pat l : List Char) (h : pat.isPrefixOf l = true) :
    containsSub pat l = true := by
  cases l with
  | nil =>
    cases pat with
    | nil => simp [containsSub]
    | cons c cs => simp [List.isPrefixOf] at h
  | cons c rest => simp [containsSub, h]

theorem containsSub_cons (pat : List Char) (c : Char) (l : List Char)
    (h : containsSub pat l = true) : containsSub pat (c :: l) = true := by
  simp [containsSub, h]

/-- Any match of the supplementary regex implies one of the four literal
markers occurs as a substring. -/
theorem hasRegexLink_substring (l : List Char) (h : hasRegexLink l = true) :
    LINK_MARKERS.any (fun m => containsSub m l) = true := by
  induction l with
  | nil => simp [hasRegexLink] at h
  | cons c rest ih =>
    rw [List.any_eq_true]
    have prefixOfAlt : ∀ pat, regexAltAt (c :: rest) pat = true →
        pat.isPrefixOf (c :: rest) = true := by
      intro pat hp
      unfold regexAltAt at hp
      simp only [Bool.and_eq_true] at hp
      exact hp.1
    simp only [hasRegexLink, Bool.or_eq_true] at h
    rcases h with (((h | h) | h) | h) | h
    · exact ⟨"http://".data, by simp [LINK_MARKERS],
        containsSub_of_isPrefixOf _ _ (prefixOfAlt _ h)⟩
    · exact ⟨"https://".data, by simp [LINK_MARKERS],
        containsSub_of_isPrefixOf _ _ (prefixOfAlt _ h)⟩
    · exact ⟨"t.me/".data, by simp [LINK_MARKERS],
        containsSub_of_isPrefixOf _ _ (prefixOfAlt _ h)⟩
    · exact ⟨"www.".data, by simp [LINK_MARKERS],
        containsSub_of_isPrefixOf _ _ (prefixOfAlt _ h)⟩
    · obtain ⟨m, hm, hc⟩ := List.any_eq_true.mp (ih h)
      exact ⟨m, hm, containsSub_cons _ _ _ hc⟩

/-- Claim C10: `contains_link` returns true exactly when the lowercased text
contains one of the four `LINK_MARKERS` substrings; the supplementary regex
branch never accepts a string the substring test rejects. -/
theorem claim_C10_link_detector (t : String) :
    (contains_link t = true ↔
      LINK_MARKERS.any (fun m => containsSub m (lowerList t.data)) = true) ∧
    (∀ l : List Char, hasRegexLink l = true →
      LINK_MARKERS.any (fun m => containsSub m l) = true) := by
  refine ⟨?_, fun l => hasRegexLink_substring l⟩
  unfold contains_link
  by_cases ha : LINK_MARKERS.any (fun m => containsSub m (lowerList t.data)) = true
  · simp [ha]
  · simp only [ha, if_false, iff_false]
    by_cases hr : hasRegexLink (lowerList t.data) = true
    · exact absurd (hasRegexLink_substring _ hr) ha
    · simp [hr]

/-- Witness for claim C10 at a concrete input: `hasRegexLink` accepts
`www.a` and the substring test indeed accepts it too. -/
theorem claim_C10_link_detector_witness :
    hasRegexLink "www.a".data = true ∧
    LINK_MARKERS.any (fun m => containsSub m "www.a".data) = true :=
  ⟨by decide, (claim_C10_link_detector "").2 "www.a".data (by decide)⟩

/-! ## Claim C9: activity pruning -/

theorem mem_insertDescByTs (e x : String × ℤ) (l : List (String × ℤ)) :
    x ∈ insertDescByTs e l ↔ x = e ∨ x ∈ l := by
  induction l with
  | nil => simp [insertDescByTs]
  | cons y ys ih =>
    by_cases h : y.2 ≤ e.2
    · simp [insertDescByTs, h]
    · simp [insertDescByTs, h, ih]
      tauto

theorem mem_sortDescByTs (x : String × ℤ) (l : List (String × ℤ)) :
    x ∈ sortDescByTs l ↔ x ∈ l := by
  induction l with
  | nil => simp [sortDescByTs]
  | cons y ys ih =>
    simp only [sortDescByTs, List.foldr_cons] at ih ⊢
    rw [mem_insertDescByTs, ih, List.mem_cons]

theorem alistGet_map_snd {α β γ : Type} [DecidableEq α] (f : β → γ) (l : List (α × β)) (k : α) :
    alistGet (l.map (fun e => (e.1, f e.2))) k = (alistGet l k).map f := by
  induction l with
  | nil => simp [alistGet]
  | cons e rest ih =>
    by_cases h : e.1 = k <;> simp [alistGet, h, ih]

/-- Claim C9: one pruning pass maps every chat's activity to its pruned map,
and a record survives pruning exactly when it is within the
`ACTIVITY_KEEP_DAYS` age cutoff or ranks among the `ACTIVITY_MAX_PER_CHAT`
most recently seen entries of its chat; in particular no record satisfying
either criterion is deleted. -/
theorem claim_C9_activity_prune (now : ℤ) (activity : List (ℤ × List (String × ℤ)))
    (chat : ℤ) (users : List (String × ℤ))
    (hu : alistGet activity chat = some users)
    (hnd : (users.map Prod.fst).Nodup) :
    alistGet (prune_activity_once now activity) chat =
      some (prune_chat (now - ACTIVITY_KEEP_DAYS * 86400) users) ∧
    ∀ e, e ∈ prune_chat (now - ACTIVITY_KEEP_DAYS * 86400) users ↔
      e ∈ users ∧ (now - ACTIVITY_KEEP_DAYS * 86400 ≤ e.2 ∨
        e ∈ (sortDescByTs users).take ACTIVITY_MAX_PER_CHAT) := by
  constructor
  · rw [prune_activity_once, alistGet_map_snd (prune_chat (now - ACTIVITY_KEEP_DAYS * 86400))
      activity chat, hu]
    rfl
  · intro e
    unfold prune_chat
    simp only [List.mem_filter, decide_eq_true_eq]
    constructor
    · rintro ⟨hin, hk | hk⟩
      · refine ⟨hin, Or.inl ?_⟩
        obtain ⟨e2, he2, hkey⟩ := List.mem_map.mp hk
        have he2u : e2 ∈ users := List.mem_of_mem_filter he2
        have : e2 = e := List.inj_on_of_nodup_map hnd he2u hin hkey
        subst this
        simpa using (List.mem_filter.mp he2).2
      · refine ⟨hin, Or.inr ?_⟩
        obtain ⟨e2, he2, hkey⟩ := List.mem_map.mp hk
        have he2u : e2 ∈ users := (mem_sortDescByTs e2 users).mp (List.mem_of_mem_take he2)
        have : e2 = e := List.inj_on_of_nodup_map hnd he2u hin hkey
        subst this
        exact he2
    · rintro ⟨hin, hage | htop⟩
      · exact ⟨hin, Or.inl (List.mem_map.mpr ⟨e, List.mem_filter.mpr ⟨hin, by simpa using hage⟩,
          rfl⟩)⟩
      · exact ⟨hin, Or.inr (List.mem_map.mpr ⟨e, htop, rfl⟩)⟩

/-- Witness for claim C9 at a concrete one-record store. -/
theorem claim_C9_activity_prune_witness :
    alistGet (prune_activity_once 100 [(1, [("7", 100)])]) 1 =
      some (prune_chat (100 - ACTIVITY_KEEP_DAYS * 86400) [("7", 100)]) ∧
    (("7", (100 : ℤ)) ∈ prune_chat (100 - ACTIVITY_KEEP_DAYS * 86400) [("7", 100)] ↔
      ("7", (100 : ℤ)) ∈ [(("7" : String), (100 : ℤ))] ∧
        (100 - ACTIVITY_KEEP_DAYS * 86400 ≤ 100 ∨
          ("7", (100 : ℤ)) ∈ (sortDescByTs [("7", 100)]).take ACTIVITY_MAX_PER_CHAT)) := by
  have h := claim_C9_activity_prune 100 [(1, [("7", 100)])] 1 [("7", 100)]
    (by decide) (by decide)
  exact ⟨h.1, h.2 ("7", 100)⟩

/-! ## Claim C2: duplicate-message detector -/

theorem repeatRecord_same (fp : String) (c : ℕ) : repeatRecord (fp, c) fp = (fp, c + 1) := by
  simp [repeatRecord]

theorem foldRepeat_cons (st : String × ℕ) (fp : String) (fps : List String) :
    foldRepeat st (fp :: fps) = foldRepeat (repeatRecord st fp) fps := by
  simp [foldRepeat]

theorem foldRepeat_same (fp : String) (c k : ℕ) :
    foldRepeat (fp, c) (List.replicate k fp) = (fp, c + k) := by
  induction k generalizing c with
  | zero => simp [foldRepeat]
  | succ n ih =>
    rw [List.replicate_succ, foldRepeat_cons, repeatRecord_same, ih]
    have h : c + 1 + n = c + (n + 1) := by omega
    rw [h]

/-- Starting a fresh run (stored fingerprint differs), k identical messages
leave the detector at count exactly k. -/
theorem foldRepeat_fresh (st0 : String × ℕ) (fp : String) (k : ℕ)
    (hne : st0.1 ≠ fp) (hk : 1 ≤ k) :
    foldRepeat st0 (List.replicate k fp) = (fp, k) := by
  obtain ⟨n, rfl⟩ : ∃ n, k = n + 1 := ⟨k - 1, by omega⟩
  rw [List.replicate_succ, foldRepeat_cons]
  have h1 : repeatRecord st0 fp = (fp, 1) := by
    simp [repeatRecord, Ne.symm hne]
  rw [h1, foldRepeat_same]
  have h2 : 1 + n = n + 1 := by omega
  rw [h2]

/-- Claim C2: the duplicate detector bumps the consecutive count when the
new fingerprint matches the stored one and resets it to 1 otherwise, always
storing the new fingerprint; the pipeline applies exactly this update to
the sender's stored state and fires `repeat` exactly when the new count
REACHES the configured repeat limit; hence k consecutive identical
fingerprints starting a fresh run give count k, firing exactly from the
`repeat_limit`-th occurrence on, and any differing message resets the run
to 1. -/
theorem claim_C2_duplicate_detector (hashFn : String → String) (s : ChatSettings)
    (inp : ModInput) (st : SpamState)
    (hg : guardsPass s inp)
    (hmg : inp.msg.media_group_id = none)
    (hst : inp.msg.sticker = false)
    (han : inp.msg.animation = false)
    (hfl : ((recordEvent st.msgTimes inp.now s.flood_window_sec).length : ℤ) ≤ s.flood_limit)
    (hln : ¬ (s.block_links = true ∧ norm_text (pyOrStr inp.msg.text inp.msg.caption) ≠ "" ∧
      contains_link (norm_text (pyOrStr inp.msg.text inp.msg.caption)) = true))
    (htn : norm_text (pyOrStr inp.msg.text inp.msg.caption) ≠ "") :
    ((moderate_all hashFn s inp st).1.lastHash =
      repeatRecord st.lastHash
        (text_hash hashFn (norm_text (pyOrStr inp.msg.text inp.msg.caption)))) ∧
    ((moderate_all hashFn s inp st).2 = some "repeat" ↔
      ((repeatRecord st.lastHash
        (text_hash hashFn (norm_text (pyOrStr inp.msg.text inp.msg.caption)))).2 : ℤ) ≥
        s.repeat_limit) ∧
    (∀ (st0 : String × ℕ) (fp : String), (repeatRecord st0 fp).1 = fp ∧
      (repeatRecord st0 fp).2 = if fp = st0.1 then st0.2 + 1 else 1) ∧
    (∀ (st0 : String × ℕ) (fp : String) (k : ℕ), st0.1 ≠ fp → 1 ≤ k →
      foldRepeat st0 (List.replicate k fp) = (fp, k) ∧
      (((foldRepeat st0 (List.replicate k fp)).2 : ℤ) ≥ s.repeat_limit ↔
        (k : ℤ) ≥ s.repeat_limit)) := by
  have hd := moderate_all_guards hashFn s inp st hg
  have hbranch : moderate_all hashFn s inp st =
      (let tnorm := norm_text (pyOrStr inp.msg.text inp.msg.caption)
       let dq := recordEvent st.msgTimes inp.now s.flood_window_sec
       let st1 : SpamState := { st with msgTimes := dq }
       let hsh := text_hash hashFn tnorm
       let c2 := repeatRecord st1.lastHash hsh
       let st2 : SpamState := { st1 with lastHash := c2 }
       if (c2.2 : ℤ) ≥ s.repeat_limit then (st2, some "repeat") else (st2, none)) := by
    rw [hd]
    unfold dispatch
    rw [hmg]
    simp only [hst, han, Bool.false_eq_true, if_false]
    rw [if_neg (not_lt.mpr hfl), if_neg hln, if_pos htn]
  refine ⟨?_, ?_, ?_, ?_⟩
  · rw [hbranch]
    by_cases hrep : ((repeatRecord st.lastHash
        (text_hash hashFn (norm_text (pyOrStr inp.msg.text inp.msg.caption)))).2 : ℤ) ≥
        s.repeat_limit
    · simp only [if_pos hrep]
    · simp only [if_neg hrep]
  · rw [hbranch]
    by_cases hrep : ((repeatRecord st.lastHash
        (text_hash hashFn (norm_text (pyOrStr inp.msg.text inp.msg.caption)))).2 : ℤ) ≥
        s.repeat_limit
    · simp only [if_pos hrep]
      simp [hrep]
    · simp only [if_neg hrep]
      simp [hrep]
  · intro st0 fp
    by_cases h : fp = st0.1 <;> simp [repeatRecord, h]
  · intro st0 fp k hne hk
    refine ⟨foldRepeat_fresh st0 fp k hne hk, ?_⟩
    rw [foldRepeat_fresh st0 fp k hne hk]

/-- Witness for claim C2: one plain text message `hi` from a clean state
(link blocking off, flood window empty) sets the stored fingerprint with
count 1; and three identical fingerprints in a row reach count 3. -/
theorem claim_C2_duplicate_detector_witness :
    (moderate_all id
        ⟨true, 6, 10, 3, false, "limit", "limit", 4, 3, 12, "mute", 14400, false, 14, "kick"⟩
        ⟨false, none, none, ⟨true, true, false, none, false, false, some "hi", none⟩, 0⟩
        ⟨[], [], [], ("", 0), []⟩).1.lastHash = ("hi", 1) ∧
    foldRepeat ("", 0) (List.replicate 3 "x") = ("x", 3) := by
  have h := claim_C2_duplicate_detector id
    ⟨true, 6, 10, 3, false, "limit", "limit", 4, 3, 12, "mute", 14400, false, 14, "kick"⟩
    ⟨false, none, none, ⟨true, true, false, none, false, false, some "hi", none⟩, 0⟩
    ⟨[], [], [], ("", 0), []⟩
    (by decide) rfl rfl rfl (by decide) (by decide) (by decide)
  refine ⟨?_, (h.2.2.2 ("", 0) "x" 3 (by decide) (by decide)).1⟩
  rw [h.1]
  decide

/-! ## Claim C1: sliding-window rate limiter -/

/-- On a sorted window the front-trim loop discards exactly the entries
strictly older than `now - W`. -/
theorem trimFront_eq_filter (now W : ℤ) (l : List ℤ) (h : List.Pairwise (· ≤ ·) l) :
    trimFront now W l = l.filter (fun t => now - t ≤ W) := by
  induction l with
  | nil => simp [trimFront]
  | cons t rest ih =>
    have hall := List.pairwise_cons.mp h
    by_cases hc : now - t > W
    · rw [trimFront, if_pos hc, ih hall.2, List.filter_cons]
      simp [not_le.mpr hc]
    · rw [trimFront, if_neg hc, List.filter_cons]
      have ht : now - t ≤ W := not_lt.mp hc
      have hkeep : ∀ x ∈ rest, now - x ≤ W := by
        intro x hx
        have := hall.1 x hx
        omega
      rw [List.filter_eq_self.mpr (by simpa using hkeep)]
      simp [ht]

/-- When nothing in the window is stale, trimming keeps it whole. -/
theorem trimFront_eq_self (now W : ℤ) (l : List ℤ) (h : ∀ t ∈ l, now - t ≤ W) :
    trimFront now W l = l := by
  cases l with
  | nil => rfl
  | cons t rest =>
    rw [trimFront, if_neg (not_lt.mpr (h t (List.mem_cons_self t rest)))]

theorem recordEvent_append (dq : List ℤ) (now W : ℤ) (hW : 0 ≤ W)
    (h : ∀ t ∈ dq, now - t ≤ W) : recordEvent dq now W = dq ++ [now] := by
  rw [recordEvent]
  apply trimFront_eq_self
  intro t ht
  rcases List.mem_append.mp ht with ht | ht
  · exact h t ht
  · simp only [List.mem_singleton] at ht
    omega

/-- A sequence of events that all lie within one window just accumulates:
no trimming ever happens. -/
theorem foldRecord_within (W : ℤ) (ts : List ℤ) (hW : 0 ≤ W)
    (h : ∀ a ∈ ts, ∀ b ∈ ts, a - b ≤ W) : foldRecord W ts = ts := by
  induction ts using List.reverseRecOn with
  | nil => rfl
  | append_singleton l t ih =>
    have hl : foldRecord W l = l := by
      apply ih
      intro a ha b hb
      exact h a (List.mem_append_left _ ha) b (List.mem_append_left _ hb)
    calc foldRecord W (l ++ [t])
        = recordEvent (foldRecord W l) t W := by
          rw [foldRecord, List.foldl_append]
          rfl
      _ = l ++ [t] := by
          rw [hl]
          exact recordEvent_append l t W hW (fun x hx =>
            h t (List.mem_append_right _ (List.mem_singleton_self t)) x
              (List.mem_append_left _ hx))

/-- Claim C1: one rate-limiter event appends the current timestamp and
discards exactly the entries older than `now - W`; the pipeline fires the
flood / sticker-limit / gif-limit verdicts exactly when the resulting count
STRICTLY exceeds the respective limit, each against its own window; and for
a burst of N events all within one window the k-th event fires exactly when
k exceeds the limit (so events 1..limit pass, event limit+1 fires). -/
theorem claim_C1_rate_limiter (s : ChatSettings) :
    (∀ (dq : List ℤ) (now W : ℤ), List.Pairwise (· ≤ ·) (dq ++ [now]) →
      recordEvent dq now W = (dq ++ [now]).filter (fun t => now - t ≤ W)) ∧
    (∀ (hashFn : String → String) (inp : ModInput) (st : SpamState),
      guardsPass s inp → inp.msg.media_group_id = none → inp.msg.sticker = false →
      inp.msg.animation = false →
      ((moderate_all hashFn s inp st).2 = some "flood" ↔
        ((recordEvent st.msgTimes inp.now s.flood_window_sec).length : ℤ) > s.flood_limit) ∧
      (moderate_all hashFn s inp st).1.msgTimes =
        recordEvent st.msgTimes inp.now s.flood_window_sec) ∧
    (∀ ts : List ℤ, 0 ≤ s.flood_window_sec →
      (∀ a ∈ ts, ∀ b ∈ ts, a - b ≤ s.flood_window_sec) →
      ∀ k, k ≤ ts.length →
        foldRecord s.flood_window_sec (ts.take k) = ts.take k ∧
        (((foldRecord s.flood_window_sec (ts.take k)).length : ℤ) > s.flood_limit ↔
          (k : ℤ) > s.flood_limit)) ∧
    (∀ (hashFn : String → String) (inp : ModInput) (st : SpamState),
      guardsPass s inp → inp.msg.media_group_id = none → inp.msg.sticker = true →
      s.sticker_mode = "limit" →
      ((moderate_all hashFn s inp st).2 = some "sticker_limit" ↔
        ((recordEvent st.stickerTimes inp.now s.media_window_sec).length : ℤ) >
          s.sticker_limit)) ∧
    (∀ (hashFn : String → String) (inp : ModInput) (st : SpamState),
      guardsPass s inp → inp.msg.media_group_id = none → inp.msg.sticker = false →
      inp.msg.animation = true → s.gif_mode = "limit" →
      ((moderate_all hashFn s inp st).2 = some "gif_limit" ↔
        ((recordEvent st.gifTimes inp.now s.media_window_sec).length : ℤ) > s.gif_limit)) := by
  refine ⟨?_, ?_, ?_, ?_, ?_⟩
  · intro dq now W h
    rw [recordEvent, trimFront_eq_filter now W _ h]
  · intro hashFn inp st hg hmg hst han
    rw [moderate_all_guards hashFn s inp st hg]
    unfold dispatch
    rw [hmg]
    simp only [hst, han, Bool.false_eq_true, if_false]
    by_cases hflood :
        ((recordEvent st.msgTimes inp.now s.flood_window_sec).length : ℤ) > s.flood_limit
    · simp [hflood]
    · rw [if_neg hflood]
      split_ifs <;> simp [hflood]
  · intro ts hW hts k hk
    have htake : foldRecord s.flood_window_sec (ts.take k) = ts.take k := by
      apply foldRecord_within _ _ hW
      intro a ha b hb
      exact hts a (List.mem_of_mem_take ha) b (List.mem_of_mem_take hb)
    refine ⟨htake, ?_⟩
    rw [htake, List.length_take, Nat.min_eq_left hk]
  · intro hashFn inp st hg hmg hst hmode
    rw [moderate_all_guards hashFn s inp st hg]
    unfold dispatch
    rw [hmg]
    simp only [hst, if_true, hmode]
    by_cases hlim :
        ((recordEvent st.stickerTimes inp.now s.media_window_sec).length : ℤ) > s.sticker_limit
    · simp [hlim]
    · simp [hlim]
  · intro hashFn inp st hg hmg hst han hmode
    rw [moderate_all_guards hashFn s inp st hg]
    unfold dispatch
    rw [hmg]
    simp only [hst, han, Bool.false_eq_true, if_false, if_true, hmode]
    by_cases hlim :
        ((recordEvent st.gifTimes inp.now s.media_window_sec).length : ℤ) > s.gif_limit
    · simp [hlim]
    · simp [hlim]

/-- Witness for claim C1 at concrete inputs: a sorted window, a first plain
message, a two-event burst, a first sticker and a first animation. -/
theorem claim_C1_rate_limiter_witness :
    (recordEvent [1, 2] 3 10 = [1, 2, 3]) ∧
    ((moderate_all id
        ⟨true, 6, 10, 3, false, "limit", "limit", 4, 3, 12, "mute", 14400, false, 14, "kick"⟩
        ⟨false, none, none, ⟨true, true, false, none, false, false, some "hi", none⟩, 0⟩
        ⟨[], [], [], ("", 0), []⟩).2 = some "flood" ↔
      ((recordEvent ([] : List ℤ) 0 10).length : ℤ) > 6) ∧
    (foldRecord 10 ([0, 1, 2].take 2) = [0, 1, 2].take 2) ∧
    ((moderate_all id
        ⟨true, 6, 10, 3, false, "limit", "limit", 4, 3, 12, "mute", 14400, false, 14, "kick"⟩
        ⟨false, none, none, ⟨true, true, false, none, true, false, none, none⟩, 0⟩
        ⟨[], [], [], ("", 0), []⟩).2 = some "sticker_limit" ↔
      ((recordEvent ([] : List ℤ) 0 12).length : ℤ) > 4) ∧
    ((moderate_all id
        ⟨true, 6, 10, 3, false, "limit", "limit", 4, 3, 12, "mute", 14400, false, 14, "kick"⟩
        ⟨false, none, none, ⟨true, true, false, none, false, true, none, none⟩, 0⟩
        ⟨[], [], [], ("", 0), []⟩).2 = some "gif_limit" ↔
      ((recordEvent ([] : List ℤ) 0 12).length : ℤ) > 3) := by
  have h := claim_C1_rate_limiter
    ⟨true, 6, 10, 3, false, "limit", "limit", 4, 3, 12, "mute", 14400, false, 14, "kick"⟩
  refine ⟨?_, ?_, ?_, ?_, ?_⟩
  · rw [h.1 [1, 2] 3 10 (by decide)]
    decide
  · exact (h.2.1 id
      ⟨false, none, none, ⟨true, true, false, none, false, false, some "hi", none⟩, 0⟩
      ⟨[], [], [], ("", 0), []⟩ (by decide) rfl rfl rfl).1
  · exact (h.2.2.1 [0, 1, 2] (by decide) (by decide) 2 (by decide)).1
  · exact h.2.2.2.1 id
      ⟨false, none, none, ⟨true, true, false, none, true, false, none, none⟩, 0⟩
      ⟨[], [], [], ("", 0), []⟩ (by decide) rfl rfl rfl
  · exact h.2.2.2.2 id
      ⟨false, none, none, ⟨true, true, false, none, false, true, none, none⟩, 0⟩
      ⟨[], [], [], ("", 0), []⟩ (by decide) rfl rfl rfl rfl

/-! ## Claim C4: exempt senders are complete no-ops -/

/-- Claim C4: for any inbound message whose sender is whitelisted, or has
effective role at least moderator, or is reported by the platform as
administrator or creator, the pipeline performs no enforcement action
(verdict `none`, so no delete, no mute, no audit entry) and returns the
sender's flood, sticker, animation, duplicate and album state verbatim,
whatever the message content and the settings. -/
theorem claim_C4_exempt_senders (hashFn : String → String) (s : ChatSettings)
    (inp : ModInput) (st : SpamState) (wlData : List (ℤ × List ℤ)) (chat user : ℤ)
    (hwl : inp.wl = is_whitelisted wlData chat user)
    (h : is_whitelisted wlData chat user = true ∨
      role_at_least inp.role ROLE_MOD = true ∨
      inp.memberStatus = some "administrator" ∨ inp.memberStatus = some "creator") :
    moderate_all hashFn s inp st = (st, none) := by
  unfold moderate_all
  split_ifs with h1 h2 h3 h4 h5 h6 <;> try rfl
  exfalso
  rcases h with hw | hr | hm | hm
  · exact h4 (hwl.trans hw)
  · apply h5
    refine ⟨?_, hr⟩
    cases hro : inp.role with
    | none =>
      rw [hro] at hr
      simp [role_at_least] at hr
    | some r => simp [hro]
  · exact h6 (Or.inl hm)
  · exact h6 (Or.inr hm)

/-- Witness for claim C4: a whitelisted sender with the thresholds already
exceeded (flood window far over the limit) still gets a verbatim no-op. -/
theorem claim_C4_exempt_senders_witness :
    moderate_all id
      ⟨true, 1, 10, 1, true, "limit", "limit", 1, 1, 12, "mute", 14400, false, 14, "kick"⟩
      ⟨true, none, none, ⟨true, true, false, none, false, false, some "http://x spam", none⟩, 0⟩
      ⟨[-3, -2, -1], [], [], ("", 0), []⟩ =
    (⟨[-3, -2, -1], [], [], ("", 0), []⟩, none) :=
  claim_C4_exempt_senders id
    ⟨true, 1, 10, 1, true, "limit", "limit", 1, 1, 12, "mute", 14400, false, 14, "kick"⟩
    ⟨true, none, none, ⟨true, true, false, none, false, false, some "http://x spam", none⟩, 0⟩
    ⟨[-3, -2, -1], [], [], ("", 0), []⟩ [(1, [5])] 1 5 (by decide) (Or.inl (by decide))

/-! ## Claim C5: album (media-group) coalescing -/

theorem alistGet_isSome_iff {α β : Type} [DecidableEq α] (l : List (α × β)) (k : α) :
    (alistGet l k).isSome = true ↔ k ∈ l.map Prod.fst := by
  induction l with
  | nil => simp [alistGet]
  | cons e rest ih =>
    by_cases h : e.1 = k
    · simp [alistGet, h]
    · simp [alistGet, h, ih, Ne.symm h]

theorem alistGet_append_fresh {α β : Type} [DecidableEq α] (l : List (α × β)) (k : α) (v : β)
    (h : k ∉ l.map Prod.fst) : alistGet (l ++ [(k, v)]) k = some v := by
  induction l with
  | nil => simp [alistGet]
  | cons e rest ih =>
    simp only [List.map_cons, List.mem_cons, not_or] at h
    rw [List.cons_append, alistGet, if_neg (fun hc => h.1 hc.symm), ih h.2]

theorem insertByTs_append_max (x e : String × ℤ) (m : List (String × ℤ)) (h : x.2 ≤ e.2) :
    insertByTs x (m ++ [e]) = insertByTs x m ++ [e] := by
  induction m with
  | nil => simp [insertByTs, h]
  | cons y ys ih =>
    by_cases hc : x.2 ≤ y.2
    · simp [insertByTs, hc]
    · simp [insertByTs, hc, ih]

/-- Appending an entry at least as recent as everything in the list sorts to
the sorted list with that entry still last (stability at equal timestamps:
the later-inserted entry stays behind). -/
theorem sortByTs_append_max (l : List (String × ℤ)) (e : String × ℤ)
    (h : ∀ x ∈ l, x.2 ≤ e.2) :
    sortByTs (l ++ [e]) = sortByTs l ++ [e] := by
  induction l with
  | nil => simp [sortByTs, insertByTs]
  | cons y ys ih =>
    have hys : sortByTs (ys ++ [e]) = sortByTs ys ++ [e] :=
      ih (fun x hx => h x (List.mem_cons_of_mem y hx))
    calc sortByTs (y :: ys ++ [e])
        = insertByTs y (sortByTs (ys ++ [e])) := by simp [sortByTs]
      _ = insertByTs y (sortByTs ys ++ [e]) := by rw [hys]
      _ = insertByTs y (sortByTs ys) ++ [e] :=
          insertByTs_append_max y e _ (h y (List.mem_cons_self y ys))
      _ = sortByTs (y :: ys) ++ [e] := by simp [sortByTs]

theorem length_insertByTs (e : String × ℤ) (l : List (String × ℤ)) :
    (insertByTs e l).length = l.length + 1 := by
  induction l with
  | nil => simp [insertByTs]
  | cons y ys ih =>
    by_cases hc : e.2 ≤ y.2
    · simp [insertByTs, hc]
    · simp [insertByTs, hc, ih]

theorem length_sortByTs (l : List (String × ℤ)) : (sortByTs l).length = l.length := by
  induction l with
  | nil => rfl
  | cons y ys ih =>
    simp only [sortByTs] at ih ⊢
    simp [List.foldr_cons, length_insertByTs, ih]

theorem mem_insertByTs (e x : String × ℤ) (l : List (String × ℤ)) :
    x ∈ insertByTs e l ↔ x = e ∨ x ∈ l := by
  induction l with
  | nil => simp [insertByTs]
  | cons y ys ih =>
    by_cases hc : e.2 ≤ y.2
    · simp [insertByTs, hc]
    · simp [insertByTs, hc, ih]
      tauto

theorem mem_sortByTs (x : String × ℤ) (l : List (String × ℤ)) :
    x ∈ sortByTs l ↔ x ∈ l := by
  induction l with
  | nil => simp [sortByTs]
  | cons y ys ih =>
    simp only [sortByTs, List.foldr_cons] at ih ⊢
    rw [mem_insertByTs, ih, List.mem_cons]

theorem mem_evictAlbum (seen : List (String × ℤ)) (e : String × ℤ) :
    e ∈ evictAlbum seen ↔ e ∈ seen ∧ e.1 ∉ ((sortByTs seen).take 100).map Prod.fst := by
  unfold evictAlbum
  simp [List.mem_filter]

/-- After the first item of a new group is recorded, the group key is
present whether or not the size cap evicted old groups: the new entry has
the maximal timestamp, so (by stability at ties) it sorts last, and only
the 100 oldest of at least 301 entries are dropped. -/
theorem albumSeen_key_after (seen : List (String × ℤ)) (g : String) (now : ℤ)
    (hkey : g ∉ seen.map Prod.fst) (hts : ∀ x ∈ seen, x.2 ≤ now) :
    (alistGet (if (seen ++ [(g, now)]).length > 300
        then evictAlbum (seen ++ [(g, now)])
        else seen ++ [(g, now)]) g).isSome = true := by
  by_cases hlen : (seen ++ [(g, now)]).length > 300
  · rw [if_pos hlen, alistGet_isSome_iff]
    refine List.mem_map.mpr ⟨(g, now), ?_, rfl⟩
    rw [mem_evictAlbum]
    refine ⟨List.mem_append_right _ (List.mem_singleton_self _), ?_⟩
    have hsort : sortByTs (seen ++ [(g, now)]) = sortByTs seen ++ [(g, now)] :=
      sortByTs_append_max seen (g, now) hts
    have hlen2 : 100 ≤ (sortByTs seen).length := by
      rw [length_sortByTs]
      simp only [List.length_append, List.length_cons, List.length_nil] at hlen
      omega
    rw [hsort, List.take_append_of_le_length hlen2]
    intro hmem
    obtain ⟨e, he, hkeq⟩ := List.mem_map.mp hmem
    have he2 : e ∈ seen := (mem_sortByTs e seen).mp (List.mem_of_mem_take he)
    exact hkey (List.mem_map.mpr ⟨e, he2, hkeq⟩)
  · rw [if_neg hlen, alistGet_append_fresh seen g now hkey]
    rfl

/-- First item of a group not yet tracked: record the group (with possible
eviction of the oldest groups) and check only the caption for a link. -/
theorem moderate_all_album_first (hashFn : String → String) (s : ChatSettings)
    (inp : ModInput) (st : SpamState) (g : String)
    (hg : guardsPass s inp) (hmg : inp.msg.media_group_id = some g)
    (hnew : g ∉ st.albumSeen.map Prod.fst) :
    moderate_all hashFn s inp st =
      ({ st with albumSeen :=
          if (st.albumSeen ++ [(g, inp.now)]).length > 300
          then evictAlbum (st.albumSeen ++ [(g, inp.now)])
          else st.albumSeen ++ [(g, inp.now)] },
        if norm_text (inp.msg.caption.getD "") ≠ "" ∧ s.block_links = true ∧
            contains_link (norm_text (inp.msg.caption.getD "")) = true
          then some "album_link" else none) := by
  rw [moderate_all_guards _ _ _ _ hg]
  unfold dispatch
  rw [hmg]
  have hfalse : (alistGet st.albumSeen g).isSome = false := by
    rw [Bool.eq_false_iff]
    intro hs
    exact hnew ((alistGet_isSome_iff _ _).mp hs)
  simp only [hfalse, Bool.false_eq_true, if_false]
  split_ifs <;> rfl

/-- Any further item of an already-tracked group is a complete no-op. -/
theorem moderate_all_album_seen (hashFn : String → String) (s : ChatSettings)
    (inp : ModInput) (st : SpamState) (g : String)
    (hmg : inp.msg.media_group_id = some g)
    (hseen : (alistGet st.albumSeen g).isSome = true) :
    moderate_all hashFn s inp st = (st, none) := by
  unfold moderate_all
  split_ifs <;> try rfl
  unfold dispatch
  rw [hmg]
  simp [hseen]

theorem runPipeline_album_noop (hashFn : String → String) (s : ChatSettings) (g : String)
    (rest : List ModInput) (st : SpamState)
    (hall : ∀ i ∈ rest, i.msg.media_group_id = some g)
    (hseen : (alistGet st.albumSeen g).isSome = true) :
    runPipeline hashFn s rest st = (st, List.replicate rest.length none) := by
  induction rest with
  | nil => rfl
  | cons i tl ih =>
    have hstep := moderate_all_album_seen hashFn s i st g (hall i (List.mem_cons_self i tl))
      hseen
    simp only [runPipeline, hstep]
    rw [ih (fun j hj => hall j (List.mem_cons_of_mem i hj))]
    simp [List.replicate_succ]

/-- Claim C5: an album of `1 + rest.length` physical messages from one
(chat, user) produces exactly one caption-link evaluation — on the first
item, yielding `album_link` iff link blocking is on and the normalized
caption contains a link — while items 2..K are verbatim no-ops, and the
whole album leaves the message/sticker/animation windows and the duplicate
state untouched. -/
theorem claim_C5_album_coalescing (hashFn : String → String) (s : ChatSettings)
    (inp0 : ModInput) (rest : List ModInput) (st : SpamState) (g : String)
    (h0 : inp0.msg.media_group_id = some g) (hg0 : guardsPass s inp0)
    (hrest : ∀ i ∈ rest, i.msg.media_group_id = some g)
    (hkey : g ∉ st.albumSeen.map Prod.fst)
    (hts : ∀ x ∈ st.albumSeen, x.2 ≤ inp0.now) :
    runPipeline hashFn s (inp0 :: rest) st =
      ((moderate_all hashFn s inp0 st).1,
        (if norm_text (inp0.msg.caption.getD "") ≠ "" ∧ s.block_links = true ∧
            contains_link (norm_text (inp0.msg.caption.getD "")) = true
          then some "album_link" else none) :: List.replicate rest.length none) ∧
    (moderate_all hashFn s inp0 st).1.msgTimes = st.msgTimes ∧
    (moderate_all hashFn s inp0 st).1.stickerTimes = st.stickerTimes ∧
    (moderate_all hashFn s inp0 st).1.gifTimes = st.gifTimes ∧
    (moderate_all hashFn s inp0 st).1.lastHash = st.lastHash := by
  have h1 := moderate_all_album_first hashFn s inp0 st g hg0 h0 hkey
  have hkeyafter : (alistGet (moderate_all hashFn s inp0 st).1.albumSeen g).isSome = true := by
    rw [h1]
    exact albumSeen_key_after st.albumSeen g inp0.now hkey hts
  refine ⟨?_, by rw [h1], by rw [h1], by rw [h1], by rw [h1]⟩
  simp only [runPipeline]
  rw [runPipeline_album_noop hashFn s g rest _ hrest hkeyafter]
  rw [h1]

/-- Witness for claim C5: a three-item album with a linkless caption yields
three no-op verdicts, records only the group key, and leaves every window
and the duplicate state empty. -/
theorem claim_C5_album_coalescing_witness :
    runPipeline id
      ⟨true, 6, 10, 3, true, "limit", "limit", 4, 3, 12, "mute", 14400, false, 14, "kick"⟩
      [⟨false, none, none, ⟨true, true, false, some "alb", false, false, none,
          some "nice pic"⟩, 5⟩,
       ⟨false, none, none, ⟨true, true, false, some "alb", false, false, none, none⟩, 6⟩,
       ⟨false, none, none, ⟨true, true, false, some "alb", false, false, none, none⟩, 7⟩]
      ⟨[], [], [], ("", 0), []⟩ =
      (⟨[], [], [], ("", 0), [("alb", 5)]⟩, [none, none, none]) ∧
    (moderate_all id
      ⟨true, 6, 10, 3, true, "limit", "limit", 4, 3, 12, "mute", 14400, false, 14, "kick"⟩
      ⟨false, none, none, ⟨true, true, false, some "alb", false, false, none,
          some "nice pic"⟩, 5⟩
      ⟨[], [], [], ("", 0), []⟩).1.lastHash = ("", 0) := by
  have h := claim_C5_album_coalescing id
    ⟨true, 6, 10, 3, true, "limit", "limit", 4, 3, 12, "mute", 14400, false, 14, "kick"⟩
    ⟨false, none, none, ⟨true, true, false, some "alb", false, false, none,
        some "nice pic"⟩, 5⟩
    [⟨false, none, none, ⟨true, true, false, some "alb", false, false, none, none⟩, 6⟩,
     ⟨false, none, none, ⟨true, true, false, some "alb", false, false, none, none⟩, 7⟩]
    ⟨[], [], [], ("", 0), []⟩ "alb" rfl (by decide) (by decide) (by decide) (by decide)
  refine ⟨?_, h.2.2.2.2⟩
  rw [h.1]
  decide

/-! ## Claim C8: text normalization -/

theorem char_toNat_ofNat_valid (m : ℕ) (h : m.isValidChar) : (Char.ofNat m).toNat = m := by
  rw [Char.ofNat, dif_pos h]
  rfl

theorem isPySpace_of_toNat_ne (x : Char)
    (h : x.toNat ≠ 32 ∧ x.toNat ≠ 9 ∧ x.toNat ≠ 10 ∧ x.toNat ≠ 13 ∧ x.toNat ≠ 11 ∧
      x.toNat ≠ 12) : isPySpace x = false := by
  have f : ∀ (y : Char), x.toNat ≠ y.toNat → (x == y) = false := by
    intro y hy
    rw [beq_eq_false_iff_ne]
    exact fun he => hy (he ▸ rfl)
  unfold isPySpace
  rw [f ' ' h.1, f '\t' h.2.1, f '\n' h.2.2.1, f '\r' h.2.2.2.1,
    f '\x0b' h.2.2.2.2.1, f '\x0c' h.2.2.2.2.2]
  rfl

/-- ASCII lowercasing never turns a character into or out of whitespace. -/
theorem isPySpace_toLower (c : Char) : isPySpace (Char.toLower c) = isPySpace c := by
  unfold Char.toLower
  by_cases h : c.toNat ≥ 65 ∧ c.toNat ≤ 90
  · rw [if_pos h]
    have hv : (c.toNat + 32).isValidChar := Or.inl (by omega)
    have hm : (Char.ofNat (c.toNat + 32)).toNat = c.toNat + 32 := char_toNat_ofNat_valid _ hv
    rw [isPySpace_of_toNat_ne _ (by refine ⟨?_, ?_, ?_, ?_, ?_, ?_⟩ <;> rw [hm] <;> omega),
      isPySpace_of_toNat_ne c (by refine ⟨?_, ?_, ?_, ?_, ?_, ?_⟩ <;> omega)]
  · rw [if_neg h]

theorem dropWhile_lower (l : List Char) :
    (lowerList l).dropWhile isPySpace = lowerList (l.dropWhile isPySpace) := by
  unfold lowerList
  rw [List.dropWhile_map]
  have hp : (isPySpace ∘ Char.toLower) = isPySpace := funext isPySpace_toLower
  rw [hp]

theorem lowerList_reverse (l : List Char) : lowerList l.reverse = (lowerList l).reverse := by
  unfold lowerList
  exact List.map_reverse Char.toLower l

/-- Stripping commutes with lowercasing. -/
theorem pyStrip_lower (l : List Char) : pyStrip (lowerList l) = lowerList (pyStrip l) := by
  unfold pyStrip
  rw [dropWhile_lower, ← lowerList_reverse, dropWhile_lower, ← lowerList_reverse]

theorem length_replacePairs_le (l : List Char) : (replacePairs l).length ≤ l.length := by
  induction l using replacePairs.induct with
  | case1 => simp [replacePairs]
  | case2 c => simp [replacePairs]
  | case3 c c2 rest h ih =>
    simp [replacePairs, h] at ih ⊢
    omega
  | case4 c c2 rest h ih =>
    simp [replacePairs, h] at ih ⊢
    omega

theorem length_replacePairs_lt (l : List Char) (h : hasDoubleSpace l = true) :
    (replacePairs l).length < l.length := by
  induction l using replacePairs.induct with
  | case1 => simp [hasDoubleSpace] at h
  | case2 c => simp [hasDoubleSpace] at h
  | case3 c c2 rest hc ih =>
    have hle := length_replacePairs_le rest
    simp [replacePairs, hc]
    omega
  | case4 c c2 rest hc ih =>
    have hpair : (c == ' ' && c2 == ' ') = false := by
      by_cases h1 : c = ' '
      · by_cases h2 : c2 = ' '
        · exact absurd ⟨h1, h2⟩ hc
        · simp [h2]
      · simp [h1]
    have hds : hasDoubleSpace (c2 :: rest) = true := by
      simp only [hasDoubleSpace, hpair, Bool.false_or] at h
      exact h
    have hlt := ih hds
    simp only [List.length_cons] at hlt
    simp [replacePairs, hc]
    omega

theorem collapseRunsAux_cons_nonspace (b : Bool) (c : Char) (l : List Char) (hc : c ≠ ' ') :
    collapseRunsAux b (c :: l) = c :: collapseRunsAux false l := by
  cases b <;> simp [collapseRunsAux, hc]

theorem collapseRunsAux_cons_space_false (l : List Char) :
    collapseRunsAux false (' ' :: l) = ' ' :: collapseRunsAux true l := by
  simp [collapseRunsAux]

theorem collapseRunsAux_cons_space_true (l : List Char) :
    collapseRunsAux true (' ' :: l) = collapseRunsAux true l := by
  simp [collapseRunsAux]

/-- A list with no two adjacent spaces is already collapsed. -/
theorem collapseRunsAux_of_noDS (l : List Char) (h : hasDoubleSpace l = false) :
    collapseRunsAux false l = l ∧ (l.head? ≠ some ' ' → collapseRunsAux true l = l) := by
  induction l with
  | nil => exact ⟨rfl, fun _ => rfl⟩
  | cons c rest ih =>
    cases rest with
    | nil =>
      by_cases hc : c = ' '
      · subst hc
        exact ⟨by simp [collapseRunsAux], fun hh => (hh rfl).elim⟩
      · exact ⟨by simp [collapseRunsAux, hc], fun _ => by simp [collapseRunsAux, hc]⟩
    | cons c2 rest2 =>
      have hxp : (c == ' ' && c2 == ' ') = false ∧ hasDoubleSpace (c2 :: rest2) = false := by
        simpa only [hasDoubleSpace, Bool.or_eq_false_iff] using h
      have ih2 := ih hxp.2
      by_cases hc : c = ' '
      · subst hc
        have hc2 : c2 ≠ ' ' := by
          intro he
          subst he
          simp at hxp
        refine ⟨?_, fun hh => (hh rfl).elim⟩
        rw [collapseRunsAux_cons_space_false, ih2.2 (by simp [hc2])]
      · refine ⟨?_, fun _ => ?_⟩ <;>
          rw [collapseRunsAux_cons_nonspace _ c _ hc, ih2.1]

/-- One replacement pass does not change the collapsed form. -/
theorem collapseRunsAux_replacePairs (l : List Char) :
    ∀ b, collapseRunsAux b (replacePairs l) = collapseRunsAux b l := by
  induction l using replacePairs.induct with
  | case1 => intro b; rfl
  | case2 c => intro b; rfl
  | case3 c c2 rest h ih =>
    obtain ⟨h1, h2⟩ := h
    subst h1
    subst h2
    intro b
    have hrp : replacePairs (' ' :: ' ' :: rest) = ' ' :: replacePairs rest := by
      simp [replacePairs]
    rw [hrp]
    cases b
    · rw [collapseRunsAux_cons_space_false, collapseRunsAux_cons_space_false,
        collapseRunsAux_cons_space_true, ih true]
    · rw [collapseRunsAux_cons_space_true, collapseRunsAux_cons_space_true,
        collapseRunsAux_cons_space_true, ih true]
  | case4 c c2 rest h ih =>
    intro b
    have hrp : replacePairs (c :: c2 :: rest) = c :: replacePairs (c2 :: rest) := by
      simp [replacePairs, h]
    rw [hrp]
    by_cases hc : c = ' '
    · subst hc
      have hc2 : c2 ≠ ' ' := fun he => h ⟨rfl, he⟩
      cases b
      · rw [collapseRunsAux_cons_space_false, collapseRunsAux_cons_space_false, ih true]
      · rw [collapseRunsAux_cons_space_true, collapseRunsAux_cons_space_true, ih true]
    · rw [collapseRunsAux_cons_nonspace b c _ hc, collapseRunsAux_cons_nonspace b c _ hc,
        ih false]

/-- The fueled while-loop with `l.length` fuel computes exactly the
single-pass collapse of space runs. -/
theorem collapseLoopFuel_eq (n : ℕ) : ∀ l : List Char, l.length ≤ n →
    collapseLoopFuel n l = collapseRuns l := by
  induction n with
  | zero =>
    intro l hl
    have : l = [] := List.length_eq_zero.mp (Nat.le_zero.mp hl)
    subst this
    rfl
  | succ n ih =>
    intro l hl
    by_cases hds : hasDoubleSpace l = true
    · simp only [collapseLoopFuel, hds, if_true]
      rw [ih (replacePairs l) (by have := length_replacePairs_lt l hds; omega)]
      exact collapseRunsAux_replacePairs l false
    · simp only [collapseLoopFuel, hds, if_false]
      rw [Bool.not_eq_true] at hds
      exact ((collapseRunsAux_of_noDS l hds).1).symm

theorem collapseSpaces_eq_collapseRuns (l : List Char) : collapseSpaces l = collapseRuns l :=
  collapseLoopFuel_eq l.length l (le_refl _)

/-- The `norm_text` in closed form: strip, lowercase, collapse each maximal run
of spaces to one space. -/
theorem norm_text_eq (s : String) :
    norm_text s = String.mk (collapseRuns (lowerList (pyStrip s.data))) := by
  unfold norm_text
  rw [collapseSpaces_eq_collapseRuns]

theorem pyStrip_eq_stripEnd (l : List Char) :
    pyStrip l = stripEnd (l.dropWhile isPySpace) := rfl

theorem stripEnd_append_spaces (x w : List Char) (hw : ∀ c ∈ w, isPySpace c = true) :
    stripEnd (x ++ w) = stripEnd x := by
  unfold stripEnd
  rw [List.reverse_append,
    List.dropWhile_append_of_pos (fun a ha => hw a (List.mem_reverse.mp ha))]

theorem stripEnd_append_keep (v y : List Char) (hy : y.reverse.dropWhile isPySpace ≠ []) :
    stripEnd (v ++ y) = v ++ stripEnd y := by
  unfold stripEnd
  rw [List.reverse_append, List.dropWhile_append,
    if_neg (by simpa [List.isEmpty_iff] using hy), List.reverse_append, List.reverse_reverse]

/-- Surrounding whitespace is invisible to `pyStrip`. -/
theorem pyStrip_surround (w₁ w₂ m : List Char)
    (hw₁ : ∀ c ∈ w₁, isPySpace c = true) (hw₂ : ∀ c ∈ w₂, isPySpace c = true) :
    pyStrip (w₁ ++ m ++ w₂) = pyStrip m := by
  rw [pyStrip_eq_stripEnd, pyStrip_eq_stripEnd, List.append_assoc,
    List.dropWhile_append_of_pos hw₁]
  by_cases hm : m.dropWhile isPySpace = []
  · have hmw : (m ++ w₂).dropWhile isPySpace = [] := by
      rw [List.dropWhile_append, if_pos (by simpa [List.isEmpty_iff] using hm)]
      exact List.dropWhile_eq_nil_iff.mpr hw₂
    rw [hmw, hm]
  · rw [List.dropWhile_append, if_neg (by simpa [List.isEmpty_iff] using hm),
      stripEnd_append_spaces _ _ hw₂]

/-- Doubling a space changes nothing after collapsing. -/
theorem collapseRunsAux_dup (x y : List Char) :
    ∀ b, collapseRunsAux b (x ++ ' ' :: ' ' :: y) = collapseRunsAux b (x ++ ' ' :: y) := by
  induction x with
  | nil =>
    intro b
    cases b
    · rw [List.nil_append, List.nil_append, collapseRunsAux_cons_space_false,
        collapseRunsAux_cons_space_true, collapseRunsAux_cons_space_false]
    · rw [List.nil_append, List.nil_append, collapseRunsAux_cons_space_true]
  | cons c x2 ih =>
    intro b
    by_cases hc : c = ' '
    · subst hc
      cases b
      · rw [List.cons_append, collapseRunsAux_cons_space_false, List.cons_append,
          collapseRunsAux_cons_space_false, ih true]
      · rw [List.cons_append, collapseRunsAux_cons_space_true, List.cons_append,
          collapseRunsAux_cons_space_true, ih true]
    · rw [List.cons_append, collapseRunsAux_cons_nonspace b c _ hc, List.cons_append,
        collapseRunsAux_cons_nonspace b c _ hc, ih false]

/-- Doubling an internal space survives stripping: the collapsed stripped
forms agree. -/
theorem collapseRuns_pyStrip_dup (x y : List Char) :
    collapseRuns (pyStrip (x ++ ' ' :: ' ' :: y)) =
      collapseRuns (pyStrip (x ++ ' ' :: y)) := by
  have hsp : isPySpace ' ' = true := by decide
  by_cases hx : x.dropWhile isPySpace = []
  · have hx' : ∀ c ∈ x, isPySpace c = true := List.dropWhile_eq_nil_iff.mp hx
    rw [pyStrip_eq_stripEnd, pyStrip_eq_stripEnd, List.dropWhile_append_of_pos hx',
      List.dropWhile_append_of_pos hx', List.dropWhile_cons_of_pos hsp,
      List.dropWhile_cons_of_pos hsp]
  · have hne : ¬ (x.dropWhile isPySpace).isEmpty = true := by
      simpa [List.isEmpty_iff] using hx
    rw [pyStrip_eq_stripEnd, pyStrip_eq_stripEnd, List.dropWhile_append, if_neg hne,
      List.dropWhile_append, if_neg hne]
    by_cases hy : y.reverse.dropWhile isPySpace = []
    · have hy' : ∀ c ∈ y, isPySpace c = true := by
        intro c hc
        exact List.dropWhile_eq_nil_iff.mp hy c (List.mem_reverse.mpr hc)
      rw [stripEnd_append_spaces _ (' ' :: ' ' :: y)
          (by
            intro c hc
            simp only [List.mem_cons] at hc
            rcases hc with rfl | rfl | hc
            · exact hsp
            · exact hsp
            · exact hy' c hc),
        stripEnd_append_spaces _ (' ' :: y)
          (by
            intro c hc
            simp only [List.mem_cons] at hc
            rcases hc with rfl | hc
            · exact hsp
            · exact hy' c hc)]
    · have e2 : x.dropWhile isPySpace ++ ' ' :: ' ' :: y =
          (x.dropWhile isPySpace ++ [' ', ' ']) ++ y := by simp
      have e1 : x.dropWhile isPySpace ++ ' ' :: y =
          (x.dropWhile isPySpace ++ [' ']) ++ y := by simp
      rw [e2, e1, stripEnd_append_keep _ y hy, stripEnd_append_keep _ y hy]
      have f2 : (x.dropWhile isPySpace ++ [' ', ' ']) ++ stripEnd y =
          x.dropWhile isPySpace ++ ' ' :: ' ' :: stripEnd y := by simp
      have f1 : (x.dropWhile isPySpace ++ [' ']) ++ stripEnd y =
          x.dropWhile isPySpace ++ ' ' :: stripEnd y := by simp
      rw [f2, f1]
      exact collapseRunsAux_dup (x.dropWhile isPySpace) (stripEnd y) false

/-- Claim C8 is refuted at this input: `a<TAB>b` and `a b` differ only in
the kind of the single internal whitespace character, yet they do not
normalize to the same string — `norm_text` collapses only runs of the space
character and leaves a tab (whitespace per `str.strip`) untouched
internally. -/
theorem claim_C8_counterexample :
    isPySpace '\t' = true ∧
    norm_text "a\tb" = "a\tb" ∧
    norm_text "a b" = "a b" ∧
    norm_text "a\tb" ≠ norm_text "a b" := by
  refine ⟨by decide, by decide, by decide, by decide⟩

/-- Claim C8 as amended: `norm_text` trims surrounding whitespace,
lowercases, and collapses every internal run of SPACE characters (only) to
a single space; hence two texts that differ only in letter case, in
surrounding whitespace, or in the lengths of internal runs of spaces
normalize to the same string and therefore receive the same fingerprint for
any deterministic fingerprint function; runs of other whitespace kinds are
not collapsed (see the counterexample). -/
theorem claim_C8_norm_text :
    (∀ s : String, norm_text s = String.mk (collapseRuns (lowerList (pyStrip s.data)))) ∧
    (∀ s₁ s₂ : String, lowerList s₁.data = lowerList s₂.data →
      norm_text s₁ = norm_text s₂) ∧
    (∀ (w₁ w₂ : List Char) (s : String), (∀ c ∈ w₁, isPySpace c = true) →
      (∀ c ∈ w₂, isPySpace c = true) →
      norm_text (String.mk (w₁ ++ s.data ++ w₂)) = norm_text s) ∧
    (∀ a b : List Char,
      norm_text (String.mk (a ++ ' ' :: ' ' :: b)) =
        norm_text (String.mk (a ++ ' ' :: b))) ∧
    (∀ (hashFn : String → String) (s₁ s₂ : String), norm_text s₁ = norm_text s₂ →
      text_hash hashFn s₁ = text_hash hashFn s₂) := by
  refine ⟨norm_text_eq, ?_, ?_, ?_, ?_⟩
  · intro s₁ s₂ h
    rw [norm_text_eq, norm_text_eq, ← pyStrip_lower, ← pyStrip_lower, h]
  · intro w₁ w₂ s hw₁ hw₂
    rw [norm_text_eq, norm_text_eq]
    have hd : (String.mk (w₁ ++ s.data ++ w₂)).data = w₁ ++ s.data ++ w₂ := rfl
    rw [hd, pyStrip_surround w₁ w₂ s.data hw₁ hw₂]
  · intro a b
    rw [norm_text_eq, norm_text_eq]
    have hd2 : (String.mk (a ++ ' ' :: ' ' :: b)).data = a ++ ' ' :: ' ' :: b := rfl
    have hd1 : (String.mk (a ++ ' ' :: b)).data = a ++ ' ' :: b := rfl
    rw [hd2, hd1, ← pyStrip_lower, ← pyStrip_lower]
    have hsp : Char.toLower ' ' = ' ' := by decide
    have hl2 : lowerList (a ++ ' ' :: ' ' :: b) =
        lowerList a ++ ' ' :: ' ' :: lowerList b := by
      unfold lowerList
      simp [hsp]
    have hl1 : lowerList (a ++ ' ' :: b) = lowerList a ++ ' ' :: lowerList b := by
      unfold lowerList
      simp [hsp]
    rw [hl2, hl1]
    exact congrArg String.mk (collapseRuns_pyStrip_dup (lowerList a) (lowerList b))
  · intro hashFn s₁ s₂ h
    unfold text_hash
    rw [h]

/-- Witness for the amended claim C8 at concrete strings: case folding,
surrounding whitespace, doubled internal spaces, and the induced
fingerprint equality. -/
theorem claim_C8_norm_text_witness :
    norm_text "A b" = norm_text "a B" ∧
    norm_text (String.mk ([' '] ++ "hi".data ++ [' ', '\t'])) = norm_text "hi" ∧
    norm_text (String.mk ("x".data ++ ' ' :: ' ' :: "y".data)) =
      norm_text (String.mk ("x".data ++ ' ' :: "y".data)) ∧
    text_hash id "A" = text_hash id "a" := by
  have h := claim_C8_norm_text
  exact ⟨h.2.1 "A b" "a B" (by decide),
    h.2.2.1 [' '] [' ', '\t'] "hi" (by decide) (by decide),
    h.2.2.2.1 "x".data "y".data,
    h.2.2.2.2 id "A" "a" (h.2.1 "A" "a" (by decide))⟩

end Bot
